import Mathlib

/-!
Shallow embedding of the transaction-processing engine
(src/core.rs, src/core/account.rs, src/core/amount.rs, src/core/transaction.rs).

Modelling conventions:
* `ClientId` (Rust `u16`) and `TransactionId` (Rust `u16`) are modelled as `Nat`;
  ids are only used as map keys, never arithmetically, so the 16-bit bound is
  irrelevant to every claim considered here.
* `Amount` (Rust `fixed::types::I64F64`, a binary fixed-point number whose raw
  value is a 128-bit signed integer counting units of 2 ^ (-64)) is modelled as
  an unbounded `Int` holding the raw value.  The engine only adds, subtracts and
  compares amounts; `fixed` arithmetic panics on overflow rather than wrapping,
  and no claim concerns magnitudes near 2 ^ 63, so exact integer arithmetic is
  the faithful model.
* The Rust `HashMap`s are modelled as functions `Nat → Option _`; `HashMap`
  iteration order never matters to the engine.
* The tokio channel plumbing (`Task::new`, `send_tx`, `close`) serialises all
  records into one ordered stream consumed by `task`; the engine itself is the
  sequential loop body, modelled as a `step` function folded over the record
  list (`run`).
-/

/-- Client ID (Rust `u16`). -/
abbrev ClientId := Nat

/-- Transaction ID (Rust `u16`). -/
abbrev TransactionId := Nat

/-- Financial amount: raw value of a `fixed::types::I64F64` (units of 2 ^ (-64)). -/
abbrev Amount := Int

/-- The account containing the finances of each client (src/core/account.rs). -/
structure Account where
  client : ClientId
  available : Amount
  held : Amount
  locked : Bool
  deriving Repr, DecidableEq

namespace Account

/-- `Account::new`: zero balances, unlocked. -/
def new (client : ClientId) : Account :=
  { client := client, available := 0, held := 0, locked := false }

/-- `Account::deposit`: `self.available += amount`. -/
def deposit (self : Account) (amount : Amount) : Account :=
  { self with available := self.available + amount }

/-- `Account::withdraw`: withdraw only if the amount is available. -/
def withdraw (self : Account) (amount : Amount) : Account :=
  if amount > self.available then self
  else { self with available := self.available - amount }

/-- `Account::hold`: move `amount` from available to held, if available suffices. -/
def hold (self : Account) (amount : Amount) : Account :=
  if amount > self.available then self
  else { self with available := self.available - amount, held := self.held + amount }

/-- `Account::release`: move `amount` from held back to available, if held suffices. -/
def release (self : Account) (amount : Amount) : Account :=
  if amount > self.held then self
  else { self with available := self.available + amount, held := self.held - amount }

/-- `Account::chargeback`: `self.held -= amount` unconditionally, and lock. -/
def chargeback (self : Account) (amount : Amount) : Account :=
  { self with held := self.held - amount, locked := true }

end Account

/-- `TransactionType` (src/core/transaction.rs). -/
inductive TransactionType where
  | Deposit
  | Withdrawal
  | Dispute
  | Resolve
  | Chargeback
  deriving Repr, DecidableEq, BEq

/-- `RawTransaction`: a single submitted record. -/
structure RawTransaction where
  tx_type : TransactionType
  client : ClientId
  id : TransactionId
  amount : Amount
  deriving Repr, DecidableEq

/-- `Transaction`: a raw transaction plus its dispute state. -/
structure Transaction where
  raw : RawTransaction
  disputed : Bool
  deriving Repr, DecidableEq

/-- `impl From<RawTransaction> for Transaction`: `disputed` starts out false. -/
def Transaction.fromRaw (raw : RawTransaction) : Transaction :=
  { raw := raw, disputed := false }

/-- Functional update of a keyed map (models `HashMap::insert`). -/
def mapUpdate {α : Type} (m : Nat → Option α) (k : Nat) (v : α) : Nat → Option α :=
  fun i => if i = k then some v else m i

/-- `Accounts`: data structure holding accounts (`HashMap<ClientId, Account>`). -/
structure Accounts where
  data : ClientId → Option Account

/-- `Accounts::new`: empty map. -/
def Accounts.new : Accounts := ⟨fun _ => none⟩

/-- `Accounts::exists`: check if an account exists. -/
def Accounts.exists (self : Accounts) (id : ClientId) : Bool :=
  (self.data id).isSome

/-- The whole state owned by the `task` loop: the account store and the
transaction history store (`HashMap<TransactionId, Transaction>`). -/
structure LedgerState where
  accounts : Accounts
  transactions : TransactionId → Option Transaction

/-- The initial state of `task`: `Accounts::new()` and an empty history map. -/
def initState : LedgerState :=
  { accounts := Accounts.new, transactions := fun _ => none }

/-- One iteration of the `task` loop on `Action::RawTx(raw_tx)` (src/core.rs).

Mirrors the source exactly:
1. account gating (`continue` when a non-deposit addresses an absent client);
2. `get_or_create` of the account;
3. history recording for deposits under a fresh id (first write wins);
4. dispatch on the transaction type.  The `Dispute` arm sets `disputed = true`
   unconditionally after `Account::hold`; the `Resolve` arm clears it
   unconditionally after `Account::release`; the `Chargeback` arm leaves it
   unchanged — exactly as the source does. -/
def step (s : LedgerState) (raw_tx : RawTransaction) : LedgerState :=
  if raw_tx.tx_type != TransactionType.Deposit && !(s.accounts.exists raw_tx.client) then
    s
  else
    let account : Account :=
      match s.accounts.data raw_tx.client with
      | some a => a
      | none => Account.new raw_tx.client
    let transactions1 : TransactionId → Option Transaction :=
      if raw_tx.tx_type == TransactionType.Deposit && (s.transactions raw_tx.id).isNone then
        mapUpdate s.transactions raw_tx.id (Transaction.fromRaw raw_tx)
      else
        s.transactions
    match raw_tx.tx_type with
    | TransactionType.Deposit =>
      { accounts := ⟨mapUpdate s.accounts.data raw_tx.client (account.deposit raw_tx.amount)⟩,
        transactions := transactions1 }
    | TransactionType.Withdrawal =>
      { accounts := ⟨mapUpdate s.accounts.data raw_tx.client (account.withdraw raw_tx.amount)⟩,
        transactions := transactions1 }
    | TransactionType.Dispute =>
      match transactions1 raw_tx.id with
      | some disputed_tx =>
        { accounts := ⟨mapUpdate s.accounts.data raw_tx.client (account.hold disputed_tx.raw.amount)⟩,
          transactions := mapUpdate transactions1 raw_tx.id { disputed_tx with disputed := true } }
      | none => { accounts := s.accounts, transactions := transactions1 }
    | TransactionType.Resolve =>
      match transactions1 raw_tx.id with
      | some disputed_tx =>
        if !disputed_tx.disputed then
          { accounts := s.accounts, transactions := transactions1 }
        else
          { accounts := ⟨mapUpdate s.accounts.data raw_tx.client (account.release disputed_tx.raw.amount)⟩,
            transactions := mapUpdate transactions1 raw_tx.id { disputed_tx with disputed := false } }
      | none => { accounts := s.accounts, transactions := transactions1 }
    | TransactionType.Chargeback =>
      match transactions1 raw_tx.id with
      | some disputed_tx =>
        if !disputed_tx.disputed then
          { accounts := s.accounts, transactions := transactions1 }
        else
          { accounts := ⟨mapUpdate s.accounts.data raw_tx.client (account.chargeback disputed_tx.raw.amount)⟩,
            transactions := transactions1 }
      | none => { accounts := s.accounts, transactions := transactions1 }

/-- Running the `task` loop on a finite list of records, starting from the
empty stores (the state returned to `close` after those records). -/
def run (records : List RawTransaction) : LedgerState :=
  records.foldl step initState

/-- A state is reachable when some finite record sequence produces it. -/
def Reachable (s : LedgerState) : Prop :=
  ∃ records : List RawTransaction, run records = s

-- Shorthand record constructors, for concrete scenarios.

/-- A deposit record. -/
def depositTx (client : ClientId) (id : TransactionId) (amount : Amount) : RawTransaction :=
  { tx_type := TransactionType.Deposit, client := client, id := id, amount := amount }

/-- A withdrawal record. -/
def withdrawalTx (client : ClientId) (id : TransactionId) (amount : Amount) : RawTransaction :=
  { tx_type := TransactionType.Withdrawal, client := client, id := id, amount := amount }

/-- A dispute record. -/
def disputeTx (client : ClientId) (id : TransactionId) (amount : Amount) : RawTransaction :=
  { tx_type := TransactionType.Dispute, client := client, id := id, amount := amount }

/-- A resolve record. -/
def resolveTx (client : ClientId) (id : TransactionId) (amount : Amount) : RawTransaction :=
  { tx_type := TransactionType.Resolve, client := client, id := id, amount := amount }

/-- A chargeback record. -/
def chargebackTx (client : ClientId) (id : TransactionId) (amount : Amount) : RawTransaction :=
  { tx_type := TransactionType.Chargeback, client := client, id := id, amount := amount }

/-- Every stored account has a nonnegative available balance. -/
def AccountsOk (d : ClientId → Option Account) : Prop :=
  ∀ c acct, d c = some acct → 0 ≤ acct.available

/-- Every stored history record carries a nonnegative amount. -/
def HistoryOk (m : TransactionId → Option Transaction) : Prop :=
  ∀ i t, m i = some t → 0 ≤ t.raw.amount

/-- Invariant carried through the `task` loop when all submitted amounts are
nonnegative. -/
def BalancesOk (s : LedgerState) : Prop :=
  AccountsOk s.accounts.data ∧ HistoryOk s.transactions

-- Amount text codec.
--
-- `serialize_amount` and `deserialize_amount` in src/core/amount.rs delegate
-- to the `fixed` crate's `Display` and `FromStr` implementations, which are
-- third-party code outside this repository's sources.  The codec below is
-- therefore modelled from the spec (sections 4.2 and 6), over the spec's
-- logical scaling of `Amount` to 4 fractional decimal digits: an integer `m`
-- stands for the amount `m / 10000`.

/-- Numeric value of a big-endian list of decimal digit characters. -/
def digitsVal (cs : List Char) : Nat :=
  cs.foldl (fun acc c => 10 * acc + (c.toNat - 48)) 0

/-- Decimal digit characters of `n`, most significant first; `fuel` bounds the
recursion depth (exact whenever `n ≤ fuel`). -/
def natChars : Nat → Nat → List Char
  | 0, _ => []
  | fuel + 1, n => if n = 0 then [] else natChars fuel (n / 10) ++ [Nat.digitChar (n % 10)]

/-- Decimal digit characters of `n`, most significant first (`"0"` for zero). -/
def natToChars (n : Nat) : List Char :=
  if n = 0 then ['0'] else natChars n n

/-- The four zero-padded decimal digit characters of `n % 10000`. -/
def frac4 (n : Nat) : List Char :=
  [Nat.digitChar (n / 1000 % 10), Nat.digitChar (n / 100 % 10),
   Nat.digitChar (n / 10 % 10), Nat.digitChar (n % 10)]

/-- Modelled from the spec: `serialize_amount` (src/core/amount.rs) calls the
`fixed` crate's `Display`, which is not part of this repository's sources.
Per spec section 4.2 the output is plain decimal text — optional minus sign,
integer part, and exactly 4 zero-padded fractional digits, no exponent. -/
def serialize_amount (m : Int) : String :=
  ⟨(if m < 0 then ['-'] else []) ++
    natToChars (m.natAbs / 10000) ++ '.' :: frac4 (m.natAbs % 10000)⟩

/-- Parse an unsigned decimal token: integer digits, optionally followed by a
dot and 1 to 4 fractional digits; exact value in units of `10 ^ (-4)`. -/
def parseUnsigned (cs : List Char) : Option Nat :=
  let intDigits := cs.takeWhile Char.isDigit
  let rest := cs.dropWhile Char.isDigit
  if intDigits.isEmpty then none
  else
    match rest with
    | [] => some (digitsVal intDigits * 10000)
    | c :: fracCs =>
      if c = '.' ∧ fracCs ≠ [] ∧ fracCs.length ≤ 4 ∧ fracCs.all Char.isDigit then
        some (digitsVal intDigits * 10000 + digitsVal fracCs * 10 ^ (4 - fracCs.length))
      else none

/-- Modelled from the spec: `deserialize_amount` (src/core/amount.rs) calls the
`fixed` crate's `FromStr`, which is not part of this repository's sources.
Per spec sections 4.2 and 6 it parses decimal text with up to 4 fractional
digits exactly (optional leading minus sign) and fails on anything else. -/
def deserialize_amount (s : String) : Option Int :=
  match s.data with
  | [] => none
  | c :: rest =>
    if c = '-' then (parseUnsigned rest).map (fun n => -Int.ofNat n)
    else (parseUnsigned (c :: rest)).map (fun n => Int.ofNat n)

-- Basic facts about the functional map model.

theorem mapUpdate_self {α : Type} (m : Nat → Option α) (k : Nat) (v : α) :
    mapUpdate m k v k = some v := by
  simp [mapUpdate]

theorem mapUpdate_ne {α : Type} (m : Nat → Option α) (k : Nat) (v : α) (i : Nat)
    (h : i ≠ k) : mapUpdate m k v i = m i := by
  simp [mapUpdate, h]

-- Decided comparisons of the transaction-type tags, as rewrite rules.

@[simp] theorem beq_WD : (TransactionType.Withdrawal == TransactionType.Deposit) = false := rfl

@[simp] theorem beq_DiD : (TransactionType.Dispute == TransactionType.Deposit) = false := rfl

@[simp] theorem beq_RD : (TransactionType.Resolve == TransactionType.Deposit) = false := rfl

@[simp] theorem beq_CD : (TransactionType.Chargeback == TransactionType.Deposit) = false := rfl

@[simp] theorem beq_DD_self : (TransactionType.Deposit == TransactionType.Deposit) = true := rfl

@[simp] theorem bne_DD : (TransactionType.Deposit != TransactionType.Deposit) = false := rfl

@[simp] theorem bne_WD : (TransactionType.Withdrawal != TransactionType.Deposit) = true := rfl

@[simp] theorem bne_DiD : (TransactionType.Dispute != TransactionType.Deposit) = true := rfl

@[simp] theorem bne_RD : (TransactionType.Resolve != TransactionType.Deposit) = true := rfl

@[simp] theorem bne_CD : (TransactionType.Chargeback != TransactionType.Deposit) = true := rfl

/-- Account gating: a non-deposit record addressed to an absent client hits
the `continue` in `task` and changes nothing. -/
theorem step_gated (s : LedgerState) (r : RawTransaction)
    (hty : r.tx_type ≠ TransactionType.Deposit)
    (hacct : s.accounts.data r.client = none) :
    step s r = s := by
  have hb : (r.tx_type != TransactionType.Deposit) = true := by
    cases h : r.tx_type <;> simp_all
  simp [step, Accounts.exists, hacct, hb]

/-- Claim C6.  For every non-deposit record addressed to a client with no
account, the record is dropped entirely: no account is created, the Account
Store and Transaction History Store are unchanged. -/
theorem C6_account_gating (s : LedgerState) (r : RawTransaction)
    (hty : r.tx_type ≠ TransactionType.Deposit)
    (hacct : s.accounts.data r.client = none) :
    step s r = s :=
  step_gated s r hty hacct

/-- Claim C6 witness: scenario C, a withdrawal by client 2 with no prior
deposit leaves the empty initial state untouched. -/
theorem C6_account_gating_witness :
    step initState (withdrawalTx 2 10 5) = initState :=
  C6_account_gating initState (withdrawalTx 2 10 5) (by decide) rfl

/-- Claim C7.  For every withdrawal record addressed to an existing client:
if the amount is at most the available balance, available decreases by exactly
that amount (other clients and the history store untouched); otherwise the
whole state is left unchanged (held and locked included). -/
theorem C7_withdrawal (s : LedgerState) (r : RawTransaction) (acct : Account)
    (hty : r.tx_type = TransactionType.Withdrawal)
    (hacct : s.accounts.data r.client = some acct) :
    (r.amount ≤ acct.available →
      (step s r).accounts.data r.client =
        some { acct with available := acct.available - r.amount } ∧
      (∀ c, c ≠ r.client → (step s r).accounts.data c = s.accounts.data c) ∧
      (∀ i, (step s r).transactions i = s.transactions i)) ∧
    (acct.available < r.amount →
      (∀ c, (step s r).accounts.data c = s.accounts.data c) ∧
      (∀ i, (step s r).transactions i = s.transactions i)) := by
  constructor
  · intro hle
    have hgt : ¬ r.amount > acct.available := not_lt.mpr hle
    refine ⟨?_, ?_, ?_⟩
    · simp [step, hty, Accounts.exists, hacct, Account.withdraw, hgt, mapUpdate_self]
    · intro c hc
      simp [step, hty, Accounts.exists, hacct, mapUpdate_ne _ _ _ _ hc]
    · intro i
      simp [step, hty, Accounts.exists, hacct]
  · intro hlt
    have hgt : r.amount > acct.available := hlt
    refine ⟨?_, ?_⟩
    · intro c
      by_cases hc : c = r.client
      · subst hc
        simp [step, hty, Accounts.exists, hacct, Account.withdraw, hgt, mapUpdate_self]
      · simp [step, hty, Accounts.exists, hacct, mapUpdate_ne _ _ _ _ hc]
    · intro i
      simp [step, hty, Accounts.exists, hacct]

/-- Claim C7 witness: client 1 holds 10 available; a withdrawal of 4 leaves 6,
and a withdrawal of 11 changes nothing. -/
theorem C7_withdrawal_witness :
    ((step (run [depositTx 1 1 10]) (withdrawalTx 1 2 4)).accounts.data 1 =
      some { client := 1, available := 0 + 10 - 4, held := 0, locked := false }) ∧
    (∀ c, (step (run [depositTx 1 1 10]) (withdrawalTx 1 2 11)).accounts.data c =
      (run [depositTx 1 1 10]).accounts.data c) :=
  ⟨(C7_withdrawal (run [depositTx 1 1 10]) (withdrawalTx 1 2 4)
      { client := 1, available := 0 + 10, held := 0, locked := false } rfl
      (by decide)).1 (by decide) |>.1,
   (C7_withdrawal (run [depositTx 1 1 10]) (withdrawalTx 1 2 11)
      { client := 1, available := 0 + 10, held := 0, locked := false } rfl
      (by decide)).2 (by decide) |>.1⟩

/-- Claim C2 counterexample.  The claim as stated is false: a dispute whose
stored amount exceeds the available balance does skip the hold, but the source
(`task`, Dispute arm) sets `disputed = true` unconditionally after calling
`Account::hold`, so the flag does not remain false.  Concrete input: deposit
10 to client 1 (tx 1), withdraw 10, then dispute tx 1. -/
theorem C2_counterexample :
    ¬ (∀ (s : LedgerState) (r : RawTransaction) (acct : Account) (t : Transaction),
        r.tx_type = TransactionType.Dispute →
        s.accounts.data r.client = some acct →
        s.transactions r.id = some t →
        acct.available < t.raw.amount →
        (∀ c, (step s r).accounts.data c = s.accounts.data c) ∧
        ((step s r).transactions r.id).map Transaction.disputed = some false) := by
  intro h
  have h2 := (h (run [depositTx 1 1 10, withdrawalTx 1 2 10]) (disputeTx 1 1 0)
      { client := 1, available := 0, held := 0, locked := false }
      (Transaction.fromRaw (depositTx 1 1 10)) rfl (by decide) (by decide) (by decide)).2
  exact absurd h2 (by decide)

/-- Claim C2 (amended).  When a dispute record's id is found in the history
store but the stored amount exceeds the account's available balance, the hold
is skipped entirely (all account balances unchanged); however the stored
record's `disputed` flag is still set to true — the source sets it regardless
of whether the hold succeeded. -/
theorem C2_dispute_insufficient_funds (s : LedgerState) (r : RawTransaction)
    (acct : Account) (t : Transaction)
    (hty : r.tx_type = TransactionType.Dispute)
    (hacct : s.accounts.data r.client = some acct)
    (ht : s.transactions r.id = some t)
    (hlt : acct.available < t.raw.amount) :
    (∀ c, (step s r).accounts.data c = s.accounts.data c) ∧
    (step s r).transactions r.id = some { t with disputed := true } ∧
    (∀ i, i ≠ r.id → (step s r).transactions i = s.transactions i) := by
  have hgt : t.raw.amount > acct.available := hlt
  refine ⟨?_, ?_, ?_⟩
  · intro c
    by_cases hc : c = r.client
    · subst hc
      simp [step, hty, Accounts.exists, hacct, ht, Account.hold, hgt, mapUpdate_self]
    · simp [step, hty, Accounts.exists, hacct, ht, mapUpdate_ne _ _ _ _ hc]
  · simp [step, hty, Accounts.exists, hacct, ht, mapUpdate_self]
  · intro i hi
    simp [step, hty, Accounts.exists, hacct, ht, mapUpdate_ne _ _ _ _ hi]

/-- Claim C2 witness: deposit 10 (tx 1), withdraw 10, dispute tx 1 — balances
stay put but tx 1 is marked disputed. -/
theorem C2_dispute_insufficient_funds_witness :
    (step (run [depositTx 1 1 10, withdrawalTx 1 2 10]) (disputeTx 1 1 0)).accounts.data 1 =
      (run [depositTx 1 1 10, withdrawalTx 1 2 10]).accounts.data 1 ∧
    (step (run [depositTx 1 1 10, withdrawalTx 1 2 10]) (disputeTx 1 1 0)).transactions 1 =
      some { raw := depositTx 1 1 10, disputed := true } :=
  ⟨(C2_dispute_insufficient_funds (run [depositTx 1 1 10, withdrawalTx 1 2 10]) (disputeTx 1 1 0)
      { client := 1, available := 0, held := 0, locked := false }
      (Transaction.fromRaw (depositTx 1 1 10)) rfl (by decide) (by decide) (by decide)).1 1,
   (C2_dispute_insufficient_funds (run [depositTx 1 1 10, withdrawalTx 1 2 10]) (disputeTx 1 1 0)
      { client := 1, available := 0, held := 0, locked := false }
      (Transaction.fromRaw (depositTx 1 1 10)) rfl (by decide) (by decide) (by decide)).2.1⟩

/-- Claim C3 counterexample.  The claim as stated is false in its last case:
when the stored amount exceeds `held`, the balance movement is skipped but the
source (`task`, Resolve arm) still clears the `disputed` flag — it does not
remain true.  Concrete input: deposit 10 (tx 1), withdraw 10, dispute tx 1
(hold skipped, flag set anyway), then resolve tx 1. -/
theorem C3_counterexample :
    ¬ (∀ (s : LedgerState) (r : RawTransaction) (acct : Account) (t : Transaction),
        r.tx_type = TransactionType.Resolve →
        s.accounts.data r.client = some acct →
        s.transactions r.id = some t →
        t.disputed = true →
        acct.held < t.raw.amount →
        (∀ c, (step s r).accounts.data c = s.accounts.data c) ∧
        ((step s r).transactions r.id).map Transaction.disputed = some true) := by
  intro h
  have h2 := (h (run [depositTx 1 1 10, withdrawalTx 1 2 10, disputeTx 1 1 0]) (resolveTx 1 1 0)
      { client := 1, available := 0, held := 0, locked := false }
      { raw := depositTx 1 1 10, disputed := true } rfl (by decide) (by decide) rfl
      (by decide)).2
  exact absurd h2 (by decide)

/-- Claim C3 (amended).  Resolve behaviour for an existing client: absent id or
undisputed record is a no-op; a disputed record with amount at most `held`
moves the amount back to available and clears the flag; a disputed record with
amount exceeding `held` leaves all balances unchanged but still clears the
`disputed` flag (the source clears it regardless of whether the release
succeeded). -/
theorem C3_resolve (s : LedgerState) (r : RawTransaction) (acct : Account)
    (hty : r.tx_type = TransactionType.Resolve)
    (hacct : s.accounts.data r.client = some acct) :
    (s.transactions r.id = none → step s r = s) ∧
    (∀ t, s.transactions r.id = some t → t.disputed = false → step s r = s) ∧
    (∀ t, s.transactions r.id = some t → t.disputed = true → t.raw.amount ≤ acct.held →
      (step s r).accounts.data r.client =
        some { acct with available := acct.available + t.raw.amount,
                         held := acct.held - t.raw.amount } ∧
      (∀ c, c ≠ r.client → (step s r).accounts.data c = s.accounts.data c) ∧
      (step s r).transactions r.id = some { t with disputed := false } ∧
      (∀ i, i ≠ r.id → (step s r).transactions i = s.transactions i)) ∧
    (∀ t, s.transactions r.id = some t → t.disputed = true → acct.held < t.raw.amount →
      (∀ c, (step s r).accounts.data c = s.accounts.data c) ∧
      (step s r).transactions r.id = some { t with disputed := false } ∧
      (∀ i, i ≠ r.id → (step s r).transactions i = s.transactions i)) := by
  refine ⟨?_, ?_, ?_, ?_⟩
  · intro ht
    simp [step, hty, Accounts.exists, hacct, ht]
  · intro t ht htd
    simp [step, hty, Accounts.exists, hacct, ht, htd]
  · intro t ht htd hle
    have hgt : ¬ t.raw.amount > acct.held := not_lt.mpr hle
    refine ⟨?_, ?_, ?_, ?_⟩
    · simp [step, hty, Accounts.exists, hacct, ht, htd, Account.release, hgt, mapUpdate_self]
    · intro c hc
      simp [step, hty, Accounts.exists, hacct, ht, htd, mapUpdate_ne _ _ _ _ hc]
    · simp [step, hty, Accounts.exists, hacct, ht, htd, mapUpdate_self]
    · intro i hi
      simp [step, hty, Accounts.exists, hacct, ht, htd, mapUpdate_ne _ _ _ _ hi]
  · intro t ht htd hgt
    refine ⟨?_, ?_, ?_⟩
    · intro c
      by_cases hc : c = r.client
      · subst hc
        simp [step, hty, Accounts.exists, hacct, ht, htd, Account.release, hgt, mapUpdate_self]
      · simp [step, hty, Accounts.exists, hacct, ht, htd, mapUpdate_ne _ _ _ _ hc]
    · simp [step, hty, Accounts.exists, hacct, ht, htd, mapUpdate_self]
    · intro i hi
      simp [step, hty, Accounts.exists, hacct, ht, htd, mapUpdate_ne _ _ _ _ hi]

/-- Claim C3 witness: scenario D (resolve without a preceding dispute is a
no-op) and a successful resolve after a successful dispute. -/
theorem C3_resolve_witness :
    (step (run [depositTx 3 20 3]) (resolveTx 3 20 0) = run [depositTx 3 20 3]) ∧
    (step (run [depositTx 1 1 10, disputeTx 1 1 0]) (resolveTx 1 1 0)).accounts.data 1 =
      some { client := 1, available := 0 + 10 - 10 + 10, held := 10 - 10, locked := false } :=
  ⟨(C3_resolve (run [depositTx 3 20 3]) (resolveTx 3 20 0)
      { client := 3, available := 0 + 3, held := 0, locked := false } rfl (by decide)).2.1
      (Transaction.fromRaw (depositTx 3 20 3)) (by decide) rfl,
   ((C3_resolve (run [depositTx 1 1 10, disputeTx 1 1 0]) (resolveTx 1 1 0)
      { client := 1, available := 0 + 10 - 10, held := 0 + 10, locked := false } rfl
      (by decide)).2.2.1
      { raw := depositTx 1 1 10, disputed := true } (by decide) rfl (by decide)).1⟩

/-- Claim C4.  Chargeback behaviour for an existing client: absent id or
undisputed record is a no-op; for a disputed record, `held` is decreased by
the stored amount unconditionally (even past zero), the account is locked,
available is untouched, and the history store — in particular the `disputed`
flag — is left unchanged. -/
theorem C4_chargeback (s : LedgerState) (r : RawTransaction) (acct : Account)
    (hty : r.tx_type = TransactionType.Chargeback)
    (hacct : s.accounts.data r.client = some acct) :
    (s.transactions r.id = none → step s r = s) ∧
    (∀ t, s.transactions r.id = some t → t.disputed = false → step s r = s) ∧
    (∀ t, s.transactions r.id = some t → t.disputed = true →
      (step s r).accounts.data r.client =
        some { acct with held := acct.held - t.raw.amount, locked := true } ∧
      (∀ c, c ≠ r.client → (step s r).accounts.data c = s.accounts.data c) ∧
      (∀ i, (step s r).transactions i = s.transactions i)) := by
  refine ⟨?_, ?_, ?_⟩
  · intro ht
    simp [step, hty, Accounts.exists, hacct, ht]
  · intro t ht htd
    simp [step, hty, Accounts.exists, hacct, ht, htd]
  · intro t ht htd
    refine ⟨?_, ?_, ?_⟩
    · simp [step, hty, Accounts.exists, hacct, ht, htd, Account.chargeback, mapUpdate_self]
    · intro c hc
      simp [step, hty, Accounts.exists, hacct, ht, htd, mapUpdate_ne _ _ _ _ hc]
    · intro i
      simp [step, hty, Accounts.exists, hacct, ht, htd]

/-- Claim C4 witness: scenario B — deposit 10 (tx 1), dispute tx 1, then
chargeback tx 1: held drops from 10 to 0, the account is locked, and the
history entry (still marked disputed) is untouched. -/
theorem C4_chargeback_witness :
    (step (run [depositTx 1 1 10, disputeTx 1 1 0]) (chargebackTx 1 1 0)).accounts.data 1 =
      some { client := 1, available := 0 + 10 - 10, held := 0 + 10 - 10, locked := true } ∧
    (∀ i, (step (run [depositTx 1 1 10, disputeTx 1 1 0]) (chargebackTx 1 1 0)).transactions i =
      (run [depositTx 1 1 10, disputeTx 1 1 0]).transactions i) :=
  ⟨((C4_chargeback (run [depositTx 1 1 10, disputeTx 1 1 0]) (chargebackTx 1 1 0)
      { client := 1, available := 0 + 10 - 10, held := 0 + 10, locked := false } rfl
      (by decide)).2.2 { raw := depositTx 1 1 10, disputed := true } (by decide) rfl).1,
   ((C4_chargeback (run [depositTx 1 1 10, disputeTx 1 1 0]) (chargebackTx 1 1 0)
      { client := 1, available := 0 + 10 - 10, held := 0 + 10, locked := false } rfl
      (by decide)).2.2 { raw := depositTx 1 1 10, disputed := true } (by decide) rfl).2.2⟩

/-- Claim C10.  The engine never checks that a disputed transaction belongs to
the disputing client: a dispute by client `r.client` whose id maps to a deposit
stored for a different client holds the stored amount against the disputing
client's own account (when its available balance suffices), marks the record
disputed, and leaves the depositor's account untouched. -/
theorem C10_cross_client_dispute (s : LedgerState) (r : RawTransaction)
    (acct : Account) (t : Transaction)
    (hty : r.tx_type = TransactionType.Dispute)
    (hacct : s.accounts.data r.client = some acct)
    (ht : s.transactions r.id = some t)
    (hcl : t.raw.client ≠ r.client)
    (hle : t.raw.amount ≤ acct.available) :
    (step s r).accounts.data r.client =
      some { acct with available := acct.available - t.raw.amount,
                       held := acct.held + t.raw.amount } ∧
    (step s r).accounts.data t.raw.client = s.accounts.data t.raw.client ∧
    (∀ c, c ≠ r.client → (step s r).accounts.data c = s.accounts.data c) ∧
    (step s r).transactions r.id = some { t with disputed := true } := by
  have hgt : ¬ t.raw.amount > acct.available := not_lt.mpr hle
  refine ⟨?_, ?_, ?_, ?_⟩
  · simp [step, hty, Accounts.exists, hacct, ht, Account.hold, hgt, mapUpdate_self]
  · simp [step, hty, Accounts.exists, hacct, ht, mapUpdate_ne _ _ _ _ hcl]
  · intro c hc
    simp [step, hty, Accounts.exists, hacct, ht, mapUpdate_ne _ _ _ _ hc]
  · simp [step, hty, Accounts.exists, hacct, ht, mapUpdate_self]

/-- Claim C10 witness: client 1 deposits 5 under tx 1; client 2 deposits 7
under tx 2 and then disputes client 1's tx 1.  Client 2's own account ends up
holding 5 (available 2), while client 1's account is untouched. -/
theorem C10_cross_client_dispute_witness :
    (step (run [depositTx 1 1 5, depositTx 2 2 7]) (disputeTx 2 1 0)).accounts.data 2 =
      some { client := 2, available := 0 + 7 - 5, held := 0 + 5, locked := false } ∧
    (step (run [depositTx 1 1 5, depositTx 2 2 7]) (disputeTx 2 1 0)).accounts.data 1 =
      (run [depositTx 1 1 5, depositTx 2 2 7]).accounts.data 1 :=
  ⟨(C10_cross_client_dispute (run [depositTx 1 1 5, depositTx 2 2 7]) (disputeTx 2 1 0)
      { client := 2, available := 0 + 7, held := 0, locked := false }
      (Transaction.fromRaw (depositTx 1 1 5)) rfl (by decide) (by decide) (by decide)
      (by decide)).1,
   (C10_cross_client_dispute (run [depositTx 1 1 5, depositTx 2 2 7]) (disputeTx 2 1 0)
      { client := 2, available := 0 + 7, held := 0, locked := false }
      (Transaction.fromRaw (depositTx 1 1 5)) rfl (by decide) (by decide) (by decide)
      (by decide)).2.1⟩

/-- Claim C1 counterexample.  The balance invariant as stated is false: `held`
can go negative.  Concrete reachable state: deposit 10 to client 1 (tx 1),
withdraw 10, dispute tx 1 (the hold is skipped for insufficient funds but the
record is still marked disputed), chargeback tx 1 — `held` ends at -10. -/
theorem C1_counterexample :
    ¬ (∀ s : LedgerState, Reachable s → ∀ c acct, s.accounts.data c = some acct →
        0 ≤ acct.available ∧ 0 ≤ acct.held) := by
  intro h
  have h2 := h (run [depositTx 1 1 10, withdrawalTx 1 2 10, disputeTx 1 1 0, chargebackTx 1 1 0])
    ⟨[depositTx 1 1 10, withdrawalTx 1 2 10, disputeTx 1 1 0, chargebackTx 1 1 0], rfl⟩
    1 { client := 1, available := 0, held := -10, locked := true } (by decide)
  exact absurd h2.2 (by decide)

-- Preservation of `BalancesOk` by the account operations.

theorem available_new (c : ClientId) : (Account.new c).available = 0 := rfl

theorem available_deposit_nonneg (a : Account) (amt : Amount)
    (ha : 0 ≤ a.available) (hamt : 0 ≤ amt) : 0 ≤ (a.deposit amt).available := by
  show 0 ≤ a.available + amt
  linarith

theorem available_withdraw_nonneg (a : Account) (amt : Amount)
    (ha : 0 ≤ a.available) : 0 ≤ (a.withdraw amt).available := by
  simp only [Account.withdraw]
  split
  · exact ha
  · rename_i hgt
    simp only [gt_iff_lt, not_lt] at hgt
    show 0 ≤ a.available - amt
    linarith

theorem available_hold_nonneg (a : Account) (amt : Amount)
    (ha : 0 ≤ a.available) : 0 ≤ (a.hold amt).available := by
  simp only [Account.hold]
  split
  · exact ha
  · rename_i hgt
    simp only [gt_iff_lt, not_lt] at hgt
    show 0 ≤ a.available - amt
    linarith

theorem available_release_nonneg (a : Account) (amt : Amount)
    (ha : 0 ≤ a.available) (hamt : 0 ≤ amt) : 0 ≤ (a.release amt).available := by
  simp only [Account.release]
  split
  · exact ha
  · show 0 ≤ a.available + amt
    linarith

theorem available_chargeback (a : Account) (amt : Amount) :
    (a.chargeback amt).available = a.available := rfl

theorem accountsOk_update {d : ClientId → Option Account} (h : AccountsOk d)
    {a : Account} (ha : 0 ≤ a.available) (c : ClientId) :
    AccountsOk (mapUpdate d c a) := by
  intro c2 acct hacct
  rcases eq_or_ne c2 c with rfl | hne
  · rw [mapUpdate_self] at hacct
    cases hacct
    exact ha
  · rw [mapUpdate_ne _ _ _ _ hne] at hacct
    exact h _ _ hacct

theorem historyOk_update {m : TransactionId → Option Transaction} (h : HistoryOk m)
    {t : Transaction} (ht : 0 ≤ t.raw.amount) (i : TransactionId) :
    HistoryOk (mapUpdate m i t) := by
  intro i2 t2 ht2
  rcases eq_or_ne i2 i with rfl | hne
  · rw [mapUpdate_self] at ht2
    cases ht2
    exact ht
  · rw [mapUpdate_ne _ _ _ _ hne] at ht2
    exact h _ _ ht2

/-- One `task` iteration preserves the invariant, provided the incoming record
carries a nonnegative amount. -/
theorem step_preserves_balancesOk (s : LedgerState) (r : RawTransaction)
    (hr : 0 ≤ r.amount) (h : BalancesOk s) : BalancesOk (step s r) := by
  obtain ⟨hA, hH⟩ := h
  rcases hacc : s.accounts.data r.client with _ | acct
  all_goals cases hty : r.tx_type
  -- absent account, deposit: account is created with balance `r.amount`
  case none.Deposit =>
    rcases hist : s.transactions r.id with _ | ht
    · have e1 : (step s r).accounts.data =
          mapUpdate s.accounts.data r.client ((Account.new r.client).deposit r.amount) := by
        simp [step, hty, Accounts.exists, hacc, hist]
      have e2 : (step s r).transactions =
          mapUpdate s.transactions r.id (Transaction.fromRaw r) := by
        simp [step, hty, Accounts.exists, hacc, hist]
      refine ⟨?_, ?_⟩
      · rw [e1]
        exact accountsOk_update hA (available_deposit_nonneg _ _ (by simp [available_new]) hr) _
      · rw [e2]
        exact historyOk_update hH hr _
    · have e1 : (step s r).accounts.data =
          mapUpdate s.accounts.data r.client ((Account.new r.client).deposit r.amount) := by
        simp [step, hty, Accounts.exists, hacc, hist]
      have e2 : (step s r).transactions = s.transactions := by
        simp [step, hty, Accounts.exists, hacc, hist]
      refine ⟨?_, ?_⟩
      · rw [e1]
        exact accountsOk_update hA (available_deposit_nonneg _ _ (by simp [available_new]) hr) _
      · rw [e2]
        exact hH
  -- absent account, non-deposit: gated, state unchanged
  case none.Withdrawal =>
    rw [step_gated s r (by simp [hty]) hacc]
    exact ⟨hA, hH⟩
  case none.Dispute =>
    rw [step_gated s r (by simp [hty]) hacc]
    exact ⟨hA, hH⟩
  case none.Resolve =>
    rw [step_gated s r (by simp [hty]) hacc]
    exact ⟨hA, hH⟩
  case none.Chargeback =>
    rw [step_gated s r (by simp [hty]) hacc]
    exact ⟨hA, hH⟩
  -- existing account
  case some.Deposit =>
    have hav : 0 ≤ acct.available := hA _ _ hacc
    rcases hist : s.transactions r.id with _ | ht
    · have e1 : (step s r).accounts.data =
          mapUpdate s.accounts.data r.client (acct.deposit r.amount) := by
        simp [step, hty, Accounts.exists, hacc, hist]
      have e2 : (step s r).transactions =
          mapUpdate s.transactions r.id (Transaction.fromRaw r) := by
        simp [step, hty, Accounts.exists, hacc, hist]
      exact ⟨e1 ▸ accountsOk_update hA (available_deposit_nonneg _ _ hav hr) _, e2 ▸ historyOk_update hH hr _⟩
    · have e1 : (step s r).accounts.data =
          mapUpdate s.accounts.data r.client (acct.deposit r.amount) := by
        simp [step, hty, Accounts.exists, hacc, hist]
      have e2 : (step s r).transactions = s.transactions := by
        simp [step, hty, Accounts.exists, hacc, hist]
      exact ⟨e1 ▸ accountsOk_update hA (available_deposit_nonneg _ _ hav hr) _, e2 ▸ hH⟩
  case some.Withdrawal =>
    have hav : 0 ≤ acct.available := hA _ _ hacc
    have e1 : (step s r).accounts.data =
        mapUpdate s.accounts.data r.client (acct.withdraw r.amount) := by
      simp [step, hty, Accounts.exists, hacc]
    have e2 : (step s r).transactions = s.transactions := by
      simp [step, hty, Accounts.exists, hacc]
    exact ⟨e1 ▸ accountsOk_update hA (available_withdraw_nonneg _ _ hav) _, e2 ▸ hH⟩
  case some.Dispute =>
    have hav : 0 ≤ acct.available := hA _ _ hacc
    rcases hist : s.transactions r.id with _ | dtx
    · have e1 : (step s r).accounts.data = s.accounts.data := by
        simp [step, hty, Accounts.exists, hacc, hist]
      have e2 : (step s r).transactions = s.transactions := by
        simp [step, hty, Accounts.exists, hacc, hist]
      exact ⟨e1 ▸ hA, e2 ▸ hH⟩
    · have hdnn : 0 ≤ dtx.raw.amount := hH _ _ hist
      have e1 : (step s r).accounts.data =
          mapUpdate s.accounts.data r.client (acct.hold dtx.raw.amount) := by
        simp [step, hty, Accounts.exists, hacc, hist]
      have e2 : (step s r).transactions =
          mapUpdate s.transactions r.id { dtx with disputed := true } := by
        simp [step, hty, Accounts.exists, hacc, hist]
      have hdnn2 : 0 ≤ ({ dtx with disputed := true } : Transaction).raw.amount := hdnn
      exact ⟨e1 ▸ accountsOk_update hA (available_hold_nonneg _ _ hav) _, e2 ▸ historyOk_update hH hdnn2 _⟩
  case some.Resolve =>
    have hav : 0 ≤ acct.available := hA _ _ hacc
    rcases hist : s.transactions r.id with _ | dtx
    · have e1 : (step s r).accounts.data = s.accounts.data := by
        simp [step, hty, Accounts.exists, hacc, hist]
      have e2 : (step s r).transactions = s.transactions := by
        simp [step, hty, Accounts.exists, hacc, hist]
      exact ⟨e1 ▸ hA, e2 ▸ hH⟩
    · have hdnn : 0 ≤ dtx.raw.amount := hH _ _ hist
      rcases hdisp : dtx.disputed with _ | _
      · have e1 : (step s r).accounts.data = s.accounts.data := by
          simp [step, hty, Accounts.exists, hacc, hist, hdisp]
        have e2 : (step s r).transactions = s.transactions := by
          simp [step, hty, Accounts.exists, hacc, hist, hdisp]
        exact ⟨e1 ▸ hA, e2 ▸ hH⟩
      · have e1 : (step s r).accounts.data =
            mapUpdate s.accounts.data r.client (acct.release dtx.raw.amount) := by
          simp [step, hty, Accounts.exists, hacc, hist, hdisp]
        have e2 : (step s r).transactions =
            mapUpdate s.transactions r.id { dtx with disputed := false } := by
          simp [step, hty, Accounts.exists, hacc, hist, hdisp]
        have hdnn2 : 0 ≤ ({ dtx with disputed := false } : Transaction).raw.amount := hdnn
        exact ⟨e1 ▸ accountsOk_update hA (available_release_nonneg _ _ hav hdnn) _, e2 ▸ historyOk_update hH hdnn2 _⟩
  case some.Chargeback =>
    have hav : 0 ≤ acct.available := hA _ _ hacc
    rcases hist : s.transactions r.id with _ | dtx
    · have e1 : (step s r).accounts.data = s.accounts.data := by
        simp [step, hty, Accounts.exists, hacc, hist]
      have e2 : (step s r).transactions = s.transactions := by
        simp [step, hty, Accounts.exists, hacc, hist]
      exact ⟨e1 ▸ hA, e2 ▸ hH⟩
    · rcases hdisp : dtx.disputed with _ | _
      · have e1 : (step s r).accounts.data = s.accounts.data := by
          simp [step, hty, Accounts.exists, hacc, hist, hdisp]
        have e2 : (step s r).transactions = s.transactions := by
          simp [step, hty, Accounts.exists, hacc, hist, hdisp]
        exact ⟨e1 ▸ hA, e2 ▸ hH⟩
      · have e1 : (step s r).accounts.data =
            mapUpdate s.accounts.data r.client (acct.chargeback dtx.raw.amount) := by
          simp [step, hty, Accounts.exists, hacc, hist, hdisp]
        have e2 : (step s r).transactions = s.transactions := by
          simp [step, hty, Accounts.exists, hacc, hist, hdisp]
        refine ⟨e1 ▸ accountsOk_update hA ?_ _, e2 ▸ hH⟩
        rw [available_chargeback]
        exact hav

/-- The invariant holds along any fold of `step` from an invariant state. -/
theorem foldl_preserves_balancesOk (l : List RawTransaction) :
    ∀ s : LedgerState, BalancesOk s → (∀ r ∈ l, 0 ≤ r.amount) →
      BalancesOk (l.foldl step s) := by
  induction l with
  | nil => intro s hs _; simpa using hs
  | cons r l ih =>
    intro s hs hnn
    simp only [List.foldl_cons]
    exact ih _ (step_preserves_balancesOk s r (hnn r (by simp)) hs)
      (fun r2 hr2 => hnn r2 (by simp [hr2]))

/-- Claim C1 (amended).  For every state reachable by records whose amounts are
all nonnegative, every account satisfies `available ≥ 0`.  (The original
`held ≥ 0` conjunct is refuted by `C1_counterexample`: a chargeback subtracts
from `held` unconditionally, and a dispute can be marked active without a
successful hold.) -/
theorem C1_available_nonneg (records : List RawTransaction)
    (hnn : ∀ r ∈ records, 0 ≤ r.amount) (c : ClientId) (acct : Account)
    (hacct : (run records).accounts.data c = some acct) :
    0 ≤ acct.available := by
  have h : BalancesOk (run records) := by
    apply foldl_preserves_balancesOk records initState _ hnn
    constructor
    · intro c2 a2 h2
      simp [initState, Accounts.new] at h2
    · intro i2 t2 h2
      simp [initState] at h2
  exact h.1 _ _ hacct

/-- Claim C1 witness: after a single deposit of 5 the stored account of
client 1 has available 5 ≥ 0. -/
theorem C1_available_nonneg_witness :
    (0 : Int) ≤ ({ client := 1, available := 0 + 5, held := 0, locked := false } : Account).available :=
  C1_available_nonneg [depositTx 1 1 5] (by decide) 1
    { client := 1, available := 0 + 5, held := 0, locked := false } (by decide)

/-- Claim C5.  Two deposits under the same transaction id: only the first is
stored in the history (first write wins), the second still adds its own amount
to the client's available balance, and a later dispute of that id holds the
first deposit's amount — not the second's. -/
theorem C5_duplicate_deposit_id (c : ClientId) (t : TransactionId) (a1 a2 aD : Amount)
    (h1 : 0 ≤ a1) (h2 : 0 ≤ a2) (hne : a1 ≠ a2) :
    (run [depositTx c t a1, depositTx c t a2]).transactions t =
      some (Transaction.fromRaw (depositTx c t a1)) ∧
    ((run [depositTx c t a1, depositTx c t a2]).accounts.data c).map Account.available =
      some (a1 + a2) ∧
    ((run [depositTx c t a1, depositTx c t a2, disputeTx c t aD]).accounts.data c).map
      Account.held = some a1 ∧
    ((run [depositTx c t a1, depositTx c t a2, disputeTx c t aD]).accounts.data c).map
      Account.held ≠ some a2 ∧
    ((run [depositTx c t a1, depositTx c t a2, disputeTx c t aD]).accounts.data c).map
      Account.available = some a2 ∧
    ((run [depositTx c t a1, depositTx c t a2, disputeTx c t aD]).transactions t).map
      Transaction.disputed = some true := by
  have hgt : ¬ (a1 > a1 + a2) := by linarith
  refine ⟨?_, ?_, ?_, ?_, ?_, ?_⟩
  · simp [run, step, initState, Accounts.new, Accounts.exists, Account.new, Account.deposit,
      Account.hold, Transaction.fromRaw, mapUpdate, depositTx, disputeTx, hgt]
  · simp [run, step, initState, Accounts.new, Accounts.exists, Account.new, Account.deposit,
      Account.hold, Transaction.fromRaw, mapUpdate, depositTx, disputeTx, hgt]
  · simp [run, step, initState, Accounts.new, Accounts.exists, Account.new, Account.deposit,
      Account.hold, Transaction.fromRaw, mapUpdate, depositTx, disputeTx, hgt]
  · simp [run, step, initState, Accounts.new, Accounts.exists, Account.new, Account.deposit,
      Account.hold, Transaction.fromRaw, mapUpdate, depositTx, disputeTx, hgt]
    exact hne
  · simp [run, step, initState, Accounts.new, Accounts.exists, Account.new, Account.deposit,
      Account.hold, Transaction.fromRaw, mapUpdate, depositTx, disputeTx, hgt]
  · simp [run, step, initState, Accounts.new, Accounts.exists, Account.new, Account.deposit,
      Account.hold, Transaction.fromRaw, mapUpdate, depositTx, disputeTx, hgt]

/-- Claim C5 witness: deposits of 10 then 7 under tx 1; the dispute holds 10,
not 7. -/
theorem C5_duplicate_deposit_id_witness :
    (run [depositTx 1 1 10, depositTx 1 1 7]).transactions 1 =
      some (Transaction.fromRaw (depositTx 1 1 10)) ∧
    ((run [depositTx 1 1 10, depositTx 1 1 7]).accounts.data 1).map Account.available =
      some (10 + 7) ∧
    ((run [depositTx 1 1 10, depositTx 1 1 7, disputeTx 1 1 0]).accounts.data 1).map
      Account.held = some 10 ∧
    ((run [depositTx 1 1 10, depositTx 1 1 7, disputeTx 1 1 0]).accounts.data 1).map
      Account.held ≠ some 7 ∧
    ((run [depositTx 1 1 10, depositTx 1 1 7, disputeTx 1 1 0]).accounts.data 1).map
      Account.available = some 7 ∧
    ((run [depositTx 1 1 10, depositTx 1 1 7, disputeTx 1 1 0]).transactions 1).map
      Transaction.disputed = some true :=
  C5_duplicate_deposit_id 1 1 10 7 0 (by norm_num) (by norm_num) (by norm_num)

-- Codec lemmas.

theorem digitsVal_append (l : List Char) (c : Char) :
    digitsVal (l ++ [c]) = 10 * digitsVal l + (c.toNat - 48) := by
  simp [digitsVal, List.foldl_append]

theorem digitChar_toNat (d : Nat) (h : d < 10) : (Nat.digitChar d).toNat - 48 = d := by
  interval_cases d <;> rfl

theorem digitChar_isDigit (d : Nat) (h : d < 10) : (Nat.digitChar d).isDigit = true := by
  interval_cases d <;> rfl

theorem natChars_val : ∀ fuel n : Nat, n ≤ fuel → digitsVal (natChars fuel n) = n := by
  intro fuel
  induction fuel with
  | zero =>
    intro n hn
    interval_cases n
    rfl
  | succ fuel ih =>
    intro n hn
    by_cases h0 : n = 0
    · subst h0
      simp [natChars, digitsVal]
    · simp only [natChars, if_neg h0]
      rw [digitsVal_append, ih (n / 10) (by omega), digitChar_toNat _ (by omega)]
      omega

theorem natChars_digits : ∀ fuel n : Nat, ∀ c ∈ natChars fuel n, c.isDigit = true := by
  intro fuel
  induction fuel with
  | zero =>
    intro n c hc
    simp [natChars] at hc
  | succ fuel ih =>
    intro n c hc
    simp only [natChars] at hc
    by_cases h0 : n = 0
    · rw [if_pos h0] at hc
      simp at hc
    · rw [if_neg h0] at hc
      rcases List.mem_append.mp hc with h | h
      · exact ih _ _ h
      · have : c = Nat.digitChar (n % 10) := by simpa using h
        subst this
        exact digitChar_isDigit _ (Nat.mod_lt _ (by norm_num))

theorem natToChars_val (n : Nat) : digitsVal (natToChars n) = n := by
  by_cases h0 : n = 0
  · subst h0
    rfl
  · rw [natToChars, if_neg h0]
    exact natChars_val n n le_rfl

theorem natToChars_digits (n : Nat) : ∀ c ∈ natToChars n, c.isDigit = true := by
  by_cases h0 : n = 0
  · subst h0
    intro c hc
    simp [natToChars] at hc
    subst hc
    rfl
  · rw [natToChars, if_neg h0]
    exact natChars_digits n n

theorem natToChars_ne_nil (n : Nat) : natToChars n ≠ [] := by
  by_cases h0 : n = 0
  · subst h0
    simp [natToChars]
  · rw [natToChars, if_neg h0]
    obtain ⟨k, rfl⟩ := Nat.exists_eq_succ_of_ne_zero h0
    simp [natChars]

theorem frac4_val (n : Nat) (h : n < 10000) : digitsVal (frac4 n) = n := by
  have e1 := digitChar_toNat (n / 1000 % 10) (by omega)
  have e2 := digitChar_toNat (n / 100 % 10) (by omega)
  have e3 := digitChar_toNat (n / 10 % 10) (by omega)
  have e4 := digitChar_toNat (n % 10) (by omega)
  simp only [frac4, digitsVal, List.foldl_cons, List.foldl_nil]
  rw [e1, e2, e3, e4]
  omega

theorem frac4_digits (n : Nat) : (frac4 n).all Char.isDigit = true := by
  simp only [frac4, List.all_cons, List.all_nil, Bool.and_true]
  rw [digitChar_isDigit _ (by omega), digitChar_isDigit _ (by omega),
    digitChar_isDigit _ (by omega), digitChar_isDigit _ (by omega)]
  rfl

theorem frac4_length (n : Nat) : (frac4 n).length = 4 := rfl

theorem frac4_ne_nil (n : Nat) : frac4 n ≠ [] := by
  simp [frac4]

theorem takeWhile_append_head_false (p : Char → Bool) :
    ∀ (l1 : List Char) (c : Char) (l2 : List Char),
      (∀ x ∈ l1, p x = true) → p c = false →
      (l1 ++ c :: l2).takeWhile p = l1 ∧ (l1 ++ c :: l2).dropWhile p = c :: l2 := by
  intro l1
  induction l1 with
  | nil =>
    intro c l2 _ hc
    simp [List.takeWhile_cons, List.dropWhile_cons, hc]
  | cons x xs ih =>
    intro c l2 hall hc
    have hx : p x = true := hall x (by simp)
    have hrec := ih c l2 (fun y hy => hall y (by simp [hy])) hc
    simp [List.takeWhile_cons, List.dropWhile_cons, hx, hrec.1, hrec.2]

theorem parseUnsigned_serialized (n : Nat) :
    parseUnsigned (natToChars (n / 10000) ++ '.' :: frac4 (n % 10000)) = some n := by
  have hsplit := takeWhile_append_head_false Char.isDigit (natToChars (n / 10000)) '.'
    (frac4 (n % 10000)) (natToChars_digits _) (by rfl)
  have hne : (natToChars (n / 10000)).isEmpty = false := by
    rcases h : natToChars (n / 10000) with _ | ⟨d, ds⟩
    · exact absurd h (natToChars_ne_nil _)
    · rfl
  rw [parseUnsigned]
  simp only [hsplit.1, hsplit.2, hne, Bool.false_eq_true, if_false, frac4_length,
    frac4_ne_nil, frac4_digits, ne_eq, not_false_eq_true, and_true, true_and, and_self,
    le_refl, if_true, ite_true]
  rw [natToChars_val, frac4_val _ (Nat.mod_lt _ (by norm_num))]
  simp only [Option.some.injEq]
  omega

/-- Claim C8.  Round trip of the Amount text codec: serializing any value
representable with at most 4 fractional decimal digits (`m` counts units of
`10 ^ (-4)`) and deserializing the text yields the value back exactly. -/
theorem C8_roundtrip (m : Int) : deserialize_amount (serialize_amount m) = some m := by
  rcases lt_or_le m 0 with hm | hm
  · rw [serialize_amount]
    simp only [if_pos hm, List.cons_append, List.nil_append]
    rw [deserialize_amount]
    simp only [ite_true, if_pos rfl]
    rw [parseUnsigned_serialized]
    simp only [Option.map_some']
    have habs : (Int.ofNat m.natAbs) = -m := by
      have h2 : ((m.natAbs : Int)) = -m := by omega
      exact h2
    rw [habs, neg_neg]
  · have hneg : ¬ m < 0 := not_lt.mpr hm
    rw [serialize_amount]
    simp only [if_neg hneg, List.nil_append]
    obtain ⟨d, ds, hd⟩ : ∃ d ds, natToChars (m.natAbs / 10000) = d :: ds := by
      rcases h : natToChars (m.natAbs / 10000) with _ | ⟨d, ds⟩
      · exact absurd h (natToChars_ne_nil _)
      · exact ⟨d, ds, rfl⟩
    have hddig : d.isDigit = true := natToChars_digits _ d (by rw [hd]; simp)
    have hdne : ¬ d = '-' := by
      intro hcontra
      rw [hcontra] at hddig
      exact absurd hddig (by decide)
    rw [hd, List.cons_append, deserialize_amount]
    simp only [if_neg hdne]
    rw [← List.cons_append, ← hd, parseUnsigned_serialized]
    simp only [Option.map_some']
    congr 1
    have h2 : ((m.natAbs : Int)) = m := by omega
    exact h2

/-- Claim C9.  The serialized form of every Amount is sign-preserving plain
decimal text — an optional leading minus (present exactly when the value is
negative), a nonempty all-digit integer part, one dot, and exactly 4 zero-padded
all-digit fractional digits (so no exponential notation can occur); in
particular three halves (15000 units) prints as "1.5000" and zero as
"0.0000". -/
theorem C9_serialize_format :
    (∀ m : Int, ∃ intChars fracChars : List Char,
      (serialize_amount m).data =
        (if m < 0 then ['-'] else []) ++ intChars ++ '.' :: fracChars ∧
      intChars ≠ [] ∧ intChars.all Char.isDigit = true ∧
      fracChars.length = 4 ∧ fracChars.all Char.isDigit = true) ∧
    serialize_amount 15000 = "1.5000" ∧
    serialize_amount (-15000) = "-1.5000" ∧
    serialize_amount 0 = "0.0000" := by
  refine ⟨?_, by decide, by decide, by decide⟩
  intro m
  refine ⟨natToChars (m.natAbs / 10000), frac4 (m.natAbs % 10000), rfl,
    natToChars_ne_nil _, ?_, frac4_length _, frac4_digits _⟩
  rw [List.all_eq_true]
  exact natToChars_digits _
